import Mathlib

/-!
# Verification of the arozos mDNS discovery module

A shallow embedding of `package mdns` (module `network/mdns`): the
`NetworkHost` metadata record, the property encoding built in `NewMDNS`,
the property decoding and domain filtering performed by the `Scan`
collector goroutine, the interface-override selection by hardware
address, and the construction/teardown control flow of
`NewMDNS`/`Close`.

Go strings are modelled as `List Char` (`Str`).  The Go standard-library
string operations used by the source — `strings.Split` with a
single-character separator, `strings.Join`, `strings.ReplaceAll` with
single-character pattern and replacement, `strings.TrimSpace`,
`strings.EqualFold` — are reimplemented here with the same semantics
(`EqualFold` is modelled as ASCII case folding, `TrimSpace` trims the
ASCII whitespace characters; the source only ever compares
hardware-address notations, where the two agree with Go).

External collaborators (the zeroconf library and the operating system)
are modelled as explicit inputs: `getMacAddr`, `zeroconf.Register`,
`net.Interfaces` and `zeroconf.NewResolver` / `Browse` outcomes are
passed in as `Except` values, and the stream of advertisement records
consumed by the collector is passed in as a list of `ServiceEntry`.
-/

/-- Go strings, modelled as explicit character lists. -/
abbrev Str := List Char

/-- `strings.Split(s, sep)` for a one-character separator `sep`:
splits around every occurrence of `sep`; `Split("", sep) = [""]`. -/
def splitChar (sep : Char) : Str → List Str
  | [] => [[]]
  | c :: rest =>
    if c = sep then [] :: splitChar sep rest
    else (splitChar sep rest).modifyHead (fun h => c :: h)

/-- `strings.Join(xs, sep)` for a one-character separator. -/
def joinChar (sep : Char) : List Str → Str
  | [] => []
  | [x] => x
  | x :: xs => x ++ sep :: joinChar sep xs

/-- `strings.ReplaceAll(s, old, new)` for one-character `old`/`new`
(the source only uses `ReplaceAll(s, ":", "-")`). -/
def replaceAllChar (pat rep : Char) (s : Str) : Str :=
  s.map (fun c => if c = pat then rep else c)

/-- `strings.TrimSpace`: drop whitespace from both ends. -/
def goTrimSpace (s : Str) : Str :=
  ((s.dropWhile Char.isWhitespace).reverse.dropWhile Char.isWhitespace).reverse

/-- `strings.ToLower` on ASCII, character by character. -/
def goToLower (s : Str) : Str := s.map Char.toLower

/-- `strings.EqualFold`: case-insensitive equality (ASCII folding). -/
def goEqualFold (a b : Str) : Bool := goToLower a = goToLower b

/-- The `NetworkHost` struct of the source (IPs kept as their textual
form, which is all the sampled code observes about them). -/
structure NetworkHost where
  HostName : Str
  Port : Int
  IPv4 : List Str
  Domain : Str
  Model : Str
  UUID : Str
  Vendor : Str
  BuildVersion : Str
  MinorVersion : Str
  MacAddr : List Str
  Online : Bool
deriving DecidableEq, Repr

/-- The TXT property lines registered by `NewMDNS` (source line 49):
`version_build=…`, `version_minor=…`, `vendor=…`, `model=…`, `uuid=…`,
`domain=…`, `mac_addr=` followed by the comma-joined MAC list. -/
def encodeProps (config : NetworkHost) : List Str :=
  [ ("version_build=").data ++ config.BuildVersion,
    ("version_minor=").data ++ config.MinorVersion,
    ("vendor=").data ++ config.Vendor,
    ("model=").data ++ config.Model,
    ("uuid=").data ++ config.UUID,
    ("domain=").data ++ config.Domain,
    ("mac_addr=").data ++ joinChar ',' config.MacAddr ]

/-- One parsing step of the `Scan` collector (source lines 144-149):
`kv := strings.Split(v, "=")`, kept only when `len(kv) == 2`. -/
def parseKV (line : Str) : Option (Str × Str) :=
  match splitChar '=' line with
  | [k, v] => some (k, v)
  | _ => none

/-- The `properties` map built by the collector, as the ordered list of
accepted key/value pairs (Go map insertion: a later pair with the same
key overwrites an earlier one, which `lookupLast` below accounts for). -/
def buildProps (lines : List Str) : List (Str × Str) :=
  lines.filterMap parseKV

/-- Reading a Go map built by in-order insertion: the last inserted
value for `key` wins; `none` when the key was never inserted. -/
def lookupLast (key : Str) : List (Str × Str) → Option Str
  | [] => none
  | (k, v) :: rest =>
    match lookupLast key rest with
    | some w => some w
    | none => if k = key then some v else none

/-- `properties[key]` as a plain read: Go's zero value `""` when absent. -/
def propGet (props : List (Str × Str)) (key : Str) : Str :=
  (lookupLast key props).getD []

/-- The `macAddrs` computation of the collector (source lines 151-158):
missing or empty `mac_addr` gives the empty list, otherwise the value is
split on `","`. -/
def decodeMacs (props : List (Str × Str)) : List Str :=
  match lookupLast ("mac_addr").data props with
  | none => []
  | some val => if val = [] then [] else splitChar ',' val

/-- A zeroconf `ServiceEntry` as the collector observes it: native
hostname/port/IPv4 fields plus the raw TXT lines. -/
structure ServiceEntry where
  HostName : Str
  Port : Int
  AddrIPv4 : List Str
  Text : List Str
deriving DecidableEq, Repr

/-- The `NetworkHost` the collector appends for one accepted entry
(source lines 161-173 and, identically, 198-210). -/
def entryToHost (entry : ServiceEntry) : NetworkHost :=
  let props := buildProps entry.Text
  { HostName := entry.HostName
    Port := entry.Port
    IPv4 := entry.AddrIPv4
    Domain := propGet props ("domain").data
    Model := propGet props ("model").data
    UUID := propGet props ("uuid").data
    Vendor := propGet props ("vendor").data
    BuildVersion := propGet props ("version_build").data
    MinorVersion := propGet props ("version_minor").data
    MacAddr := decodeMacs props
    Online := true }

/-- Modelled from the spec: `stringInSlice` is defined elsewhere in the
repository (outside the sampled source).  The spec states the filter
"accepts the record only if its encoded properties contain
`domain=<domainFilter>` as an exact raw-text match against the
advertisement's raw property lines", i.e. exact membership of the
string in the slice. -/
def stringInSlice (a : Str) (list : List Str) : Bool :=
  list.contains a

/-- The collector goroutine of `Scan` (source lines 137-216): for each
received entry, with an empty `domainFilter` every entry is accepted;
with a non-empty filter an entry is accepted exactly when
`stringInSlice("domain="+domainFilter, entry.Text)`; each accepted
entry is decoded and appended (both branches build the identical
record, `entryToHost`). -/
def scanCollect (domainFilter : Str) : List ServiceEntry → List NetworkHost
  | [] => []
  | entry :: rest =>
    if domainFilter = [] then
      entryToHost entry :: scanCollect domainFilter rest
    else if stringInSlice (("domain=").data ++ domainFilter) entry.Text then
      entryToHost entry :: scanCollect domainFilter rest
    else
      scanCollect domainFilter rest

/-- How a call to `Scan` ends: `log.Fatalln` terminates the whole
process (`fatal`), otherwise the accumulated host list is returned
after the timeout (`done`).  `Scan` has no error return value. -/
inductive ScanOutcome where
  | fatal (msg : Str)
  | done (hosts : List NetworkHost)
deriving DecidableEq, Repr

/-- `Scan` (source lines 119-229) with the external zeroconf outcomes
made explicit: `resolverResult` is the outcome of
`zeroconf.NewResolver`, `browseResult` the outcome of
`resolver.Browse`, and `received` the entries delivered on the
`entries` channel before the timeout.  On either failure the source
calls `log.Fatalln`, which exits the process. -/
def Scan (resolverResult : Except Str Unit) (browseResult : Except Str Unit)
    (domainFilter : Str) (received : List ServiceEntry) : ScanOutcome :=
  match resolverResult with
  | .error e => .fatal (("Failed to initialize resolver:").data ++ e)
  | .ok _ =>
    match browseResult with
    | .error e => .fatal (("Failed to browse:").data ++ e)
    | .ok _ => .done (scanCollect domainFilter received)

/-- An IP extracted from one interface address (the type switch of
source lines 78-85): whether `ip.To4() != nil`, and `ip.String()`. -/
structure GoIP where
  isV4 : Bool
  str : Str
deriving DecidableEq, Repr

/-- One element of `iface.Addrs()`: `addr.String()` (CIDR form) and the
IP the type switch extracts from it (`none` when the address is neither
`*net.IPNet` nor `*net.IPAddr`, in which case `ip` stays nil and
`ip.To4()` is nil). -/
structure GoAddr where
  str : Str
  ip : Option GoIP
deriving DecidableEq, Repr

/-- The `ifaceIp` computation for the matched interface (source lines
72-91): start from `addrs[0].String()` when the address list is
non-empty, then overwrite with `ip.String()` for every address whose IP
has an IPv4 form. -/
def resolveIfaceIp (addrs : List GoAddr) : Str :=
  let ifaceIp : Str := match addrs with
    | [] => []
    | a :: _ => a.str
  addrs.foldl
    (fun acc addr =>
      match addr.ip with
      | some ip => if ip.isV4 then ip.str else acc
      | none => acc)
    ifaceIp

/-- A local network interface as the override loop observes it:
`iface.HardwareAddr.String()` and `iface.Addrs()`. -/
structure Iface where
  mac : Str
  addrs : List GoAddr
deriving DecidableEq, Repr

/-- The per-interface comparison of source lines 66-69:
`EqualFold(ReplaceAll(ifaceMac, ":", "-"), TrimSpace(ReplaceAll(MacOverride, ":", "-")))`. -/
def matchesMac (ifaceMac : Str) (macOverride : Str) : Bool :=
  goEqualFold (replaceAllChar ':' '-' ifaceMac)
    (goTrimSpace (replaceAllChar ':' '-' macOverride))

/-- The interface-override search loop (source lines 64-95): the first
interface whose hardware address matches the override is selected. -/
def selectIface (ifaces : List Iface) (macOverride : Str) : Option Iface :=
  ifaces.find? (fun iface => matchesMac iface.mac macOverride)

/-- The canonical form the source compares hardware addresses in:
`:` replaced by `-`, surrounding whitespace trimmed, case folded. -/
def canonicalMac (s : Str) : Str :=
  goToLower (goTrimSpace (replaceAllChar ':' '-' s))

/-- The external `zeroconf.Server` registration handle (opaque). -/
structure ZeroconfServer where
  id : Nat
deriving DecidableEq, Repr

/-- The `MDNSHost` struct: pointer fields are `Option`s; the zero value
`&MDNSHost{}` has all three fields nil. -/
structure MDNSHost where
  MDNS : Option ZeroconfServer
  Host : Option NetworkHost
  IfaceOverride : Option Iface
deriving DecidableEq, Repr

/-- `NewMDNS` (source lines 34-109) with the external calls made
explicit: `getMacAddrResult` is the outcome of `getMacAddr()` (defined
elsewhere in the repository), `register` maps the encoded TXT
properties to the outcome of `zeroconf.Register`, and `ifacesResult`
is the outcome of `net.Interfaces()`.  Returns the Go pair
`(*MDNSHost, error)`.  On `getMacAddr` failure: `(nil, err)`.  On
registration failure: `(&MDNSHost{}, err)` — a non-nil pointer to the
zero-valued struct.  Otherwise the interface override is resolved
(first match on the canonicalised hardware address; on enumeration
failure the loop runs over no interfaces) and the constructed agent is
returned with no error. -/
def NewMDNS (config : NetworkHost) (macOverride : Str)
    (getMacAddrResult : Except Str (List Str))
    (register : List Str → Except Str ZeroconfServer)
    (ifacesResult : Except Str (List Iface)) :
    Option MDNSHost × Option Str :=
  match getMacAddrResult with
  | .error e => (none, some e)
  | .ok macAddress =>
    match register (encodeProps { config with MacAddr := macAddress }) with
    | .error e => (some { MDNS := none, Host := none, IfaceOverride := none }, some e)
    | .ok server =>
      let overrideIface : Option Iface :=
        if macOverride = [] then none
        else
          let ifaces := match ifacesResult with
            | .error _ => []
            | .ok l => l
          selectIface ifaces macOverride
      (some { MDNS := some server, Host := some config, IfaceOverride := overrideIface }, none)

/-- What invoking `Close` can do: return normally, or fault with a nil
pointer dereference. -/
inductive TeardownOutcome where
  | ok
  | nilDeref
deriving DecidableEq, Repr

/-- Calling `(*zeroconf.Server).Shutdown()` through the stored handle.
The external `Shutdown(handle)` primitive itself returns normally; but
a Go method call through a nil `*zeroconf.Server` dereferences the
receiver's fields and panics, so invoking it on an absent handle is a
nil-pointer fault. -/
def serverShutdown : Option ZeroconfServer → TeardownOutcome
  | none => .nilDeref
  | some _ => .ok

/-- `Close` (source lines 111-116): a no-op on a nil receiver
(`if m != nil`), otherwise `m.MDNS.Shutdown()` on the stored handle. -/
def Close (m : Option MDNSHost) : TeardownOutcome :=
  match m with
  | none => .ok
  | some host => serverShutdown host.MDNS

/-- Splitting the encoding on the first `=` only, following the spec's
parsing rule word for word ("split each entry on the first `=`"), to be
compared with the source's `parseKV`. -/
def specSplitFirstEq (line : Str) : Option (Str × Str) :=
  match line.splitOn '=' with
  | k :: rest@(_ :: _) => some (k, joinChar '=' rest)
  | _ => none

/-- The spec-side reading of the diagnostic-IP rule: "the first usable
IPv4 address bound to that interface". -/
def specFirstV4Str (addrs : List GoAddr) : Option Str :=
  (addrs.filterMap (fun a => match a.ip with
    | some ip => if ip.isV4 then some ip.str else none
    | none => none)).head?

/-- The IPv4 strings of an address list, in order; the source's loop
keeps overwriting, so its result is the last of these. -/
def lastV4Str (addrs : List GoAddr) : Option Str :=
  (addrs.filterMap (fun a => match a.ip with
    | some ip => if ip.isV4 then some ip.str else none
    | none => none)).getLast?

theorem splitChar_ne_nil (sep : Char) (l : Str) : splitChar sep l ≠ [] := by
  induction l with
  | nil => simp [splitChar]
  | cons c rest ih =>
    simp only [splitChar]
    by_cases h : c = sep
    · simp [h]
    · simp only [if_neg h]
      cases hs : splitChar sep rest with
      | nil => exact absurd hs ih
      | cons a b => simp [List.modifyHead]

theorem splitChar_eq_single (sep : Char) (l v : Str) :
    splitChar sep l = [v] ↔ l = v ∧ sep ∉ v := by
  induction l generalizing v with
  | nil =>
    simp only [splitChar]
    constructor
    · intro h
      injection h with h1 h2
      subst h1
      exact ⟨rfl, by simp⟩
    · rintro ⟨rfl, _⟩
      rfl
  | cons c rest ih =>
    by_cases h : c = sep
    · subst h
      simp only [splitChar, if_pos rfl]
      constructor
      · intro he
        injection he with h1 h2
        exact absurd h2 (splitChar_ne_nil c rest)
      · rintro ⟨rfl, hv⟩
        simp at hv
    · obtain ⟨a, b, hs⟩ : ∃ a b, splitChar sep rest = a :: b := by
        cases hs : splitChar sep rest with
        | nil => exact absurd hs (splitChar_ne_nil sep rest)
        | cons x y => exact ⟨x, y, rfl⟩
      simp only [splitChar, if_neg h, hs, List.modifyHead]
      constructor
      · intro he
        injection he with h1 h2
        have hsingle : splitChar sep rest = [a] := by rw [hs, h2]
        obtain ⟨hr, hm⟩ := (ih a).mp hsingle
        subst h1
        subst hr
        refine ⟨rfl, ?_⟩
        intro hmem
        rcases List.mem_cons.mp hmem with h' | h'
        · exact h h'.symm
        · exact hm h'
      · rintro ⟨rfl, hv⟩
        have hm : sep ∉ rest := fun hh => hv (List.mem_cons_of_mem _ hh)
        have hsingle : splitChar sep rest = [rest] := (ih rest).mpr ⟨rfl, hm⟩
        have hab : a :: b = [rest] := hs.symm.trans hsingle
        injection hab with e1 e2
        rw [e1, e2]

theorem splitChar_append (sep : Char) (k rest : Str) (hk : sep ∉ k) :
    splitChar sep (k ++ sep :: rest) = k :: splitChar sep rest := by
  induction k with
  | nil => simp [splitChar]
  | cons c k2 ih =>
    have hc : c ≠ sep := fun h => hk (by simp [h])
    have hk2 : sep ∉ k2 := fun h => hk (List.mem_cons_of_mem _ h)
    simp only [List.cons_append, splitChar, if_neg hc]
    show List.modifyHead (fun h => c :: h) (splitChar sep (k2 ++ sep :: rest))
      = (c :: k2) :: splitChar sep rest
    rw [ih hk2]
    simp [List.modifyHead]

theorem splitChar_eq_pair (sep : Char) (l k v : Str) :
    splitChar sep l = [k, v] ↔ l = k ++ sep :: v ∧ sep ∉ k ∧ sep ∉ v := by
  induction l generalizing k with
  | nil =>
    simp only [splitChar]
    constructor
    · intro h
      injection h with h1 h2
      exact absurd h2 (by simp)
    · rintro ⟨he, _, _⟩
      exact absurd he (by simp)
  | cons c rest ih =>
    by_cases h : c = sep
    · subst h
      simp only [splitChar, if_pos rfl]
      constructor
      · intro he
        injection he with h1 h2
        obtain ⟨hr, hm⟩ := (splitChar_eq_single c rest v).mp h2
        subst h1
        subst hr
        exact ⟨rfl, by simp, hm⟩
      · rintro ⟨he, hkk, hv⟩
        cases k with
        | nil =>
          simp only [List.nil_append] at he
          injection he with e1 e2
          subst e2
          rw [(splitChar_eq_single c rest rest).mpr ⟨rfl, hv⟩]
          simp
        | cons a k2 =>
          simp only [List.cons_append] at he
          injection he with e1 e2
          exact absurd (by simp [e1]) hkk
    · obtain ⟨a, b, hs⟩ : ∃ a b, splitChar sep rest = a :: b := by
        cases hs : splitChar sep rest with
        | nil => exact absurd hs (splitChar_ne_nil sep rest)
        | cons x y => exact ⟨x, y, rfl⟩
      simp only [splitChar, if_neg h, hs, List.modifyHead]
      constructor
      · intro he
        injection he with h1 h2
        have hpair : splitChar sep rest = [a, v] := by rw [hs, h2]
        obtain ⟨hr, hka, hv⟩ := (ih a).mp hpair
        subst h1
        subst hr
        refine ⟨rfl, ?_, hv⟩
        intro hm
        rcases List.mem_cons.mp hm with h2 | h2
        · exact h h2.symm
        · exact hka h2
      · rintro ⟨he, hkk, hv⟩
        cases k with
        | nil =>
          simp only [List.nil_append] at he
          injection he with e1 e2
          exact absurd e1 h
        | cons a2 k2 =>
          simp only [List.cons_append] at he
          injection he with e1 e2
          have hk2 : sep ∉ k2 := fun hh => hkk (List.mem_cons_of_mem _ hh)
          have hpair : splitChar sep rest = [k2, v] := (ih k2).mpr ⟨e2, hk2, hv⟩
          have hab : (a : Str) :: b = [k2, v] := hs.symm.trans hpair
          injection hab with f1 f2
          subst e1
          rw [f1, f2]

theorem joinChar_not_mem (c sep : Char) (hc : c ≠ sep) (xs : List Str)
    (h : ∀ m ∈ xs, c ∉ m) : c ∉ joinChar sep xs := by
  induction xs with
  | nil => simp [joinChar]
  | cons x xs ih =>
    cases xs with
    | nil => simpa [joinChar] using h x (by simp)
    | cons y ys =>
      intro hmem
      rcases List.mem_append.mp hmem with h1 | h1
      · exact h x (by simp) h1
      · rcases List.mem_cons.mp h1 with h2 | h2
        · exact hc h2
        · exact ih (fun m hm => h m (List.mem_cons_of_mem _ hm)) h2

theorem splitChar_joinChar (sep : Char) (xs : List Str) (hne : xs ≠ [])
    (h : ∀ m ∈ xs, sep ∉ m) : splitChar sep (joinChar sep xs) = xs := by
  induction xs with
  | nil => exact absurd rfl hne
  | cons x xs ih =>
    cases xs with
    | nil =>
      show splitChar sep x = [x]
      exact (splitChar_eq_single sep x x).mpr ⟨rfl, h x (by simp)⟩
    | cons y ys =>
      have hx : sep ∉ x := h x (by simp)
      show splitChar sep (x ++ sep :: joinChar sep (y :: ys)) = x :: y :: ys
      rw [splitChar_append sep x _ hx,
        ih (by simp) (fun m hm => h m (List.mem_cons_of_mem _ hm))]

theorem joinChar_eq_nil_iff (sep : Char) (xs : List Str) :
    joinChar sep xs = [] ↔ xs = [] ∨ xs = [[]] := by
  cases xs with
  | nil => simp [joinChar]
  | cons x xs =>
    cases xs with
    | nil => simp [joinChar]
    | cons y ys => simp [joinChar]

theorem parseKV_eq_some_iff (l k v : Str) :
    parseKV l = some (k, v) ↔ splitChar '=' l = [k, v] := by
  unfold parseKV
  cases hs : splitChar '=' l with
  | nil => simp
  | cons a t =>
    cases t with
    | nil => simp
    | cons b t2 =>
      cases t2 with
      | nil => simp
      | cons c2 t3 => simp

theorem parseKV_append (k v : Str) (hk : '=' ∉ k) (hv : '=' ∉ v) :
    parseKV (k ++ '=' :: v) = some (k, v) :=
  (parseKV_eq_some_iff _ k v).mpr ((splitChar_eq_pair '=' _ k v).mpr ⟨rfl, hk, hv⟩)

theorem buildProps_encodeProps (r : NetworkHost)
    (hB : '=' ∉ r.BuildVersion) (hMi : '=' ∉ r.MinorVersion) (hV : '=' ∉ r.Vendor)
    (hMo : '=' ∉ r.Model) (hU : '=' ∉ r.UUID) (hD : '=' ∉ r.Domain)
    (hJ : '=' ∉ joinChar ',' r.MacAddr) :
    buildProps (encodeProps r) =
      [ (("version_build").data, r.BuildVersion),
        (("version_minor").data, r.MinorVersion),
        (("vendor").data, r.Vendor),
        (("model").data, r.Model),
        (("uuid").data, r.UUID),
        (("domain").data, r.Domain),
        (("mac_addr").data, joinChar ',' r.MacAddr) ] := by
  have hform : encodeProps r =
      [ ("version_build").data ++ '=' :: r.BuildVersion,
        ("version_minor").data ++ '=' :: r.MinorVersion,
        ("vendor").data ++ '=' :: r.Vendor,
        ("model").data ++ '=' :: r.Model,
        ("uuid").data ++ '=' :: r.UUID,
        ("domain").data ++ '=' :: r.Domain,
        ("mac_addr").data ++ '=' :: joinChar ',' r.MacAddr ] := rfl
  rw [hform]
  unfold buildProps
  rw [List.filterMap_cons, parseKV_append _ _ (by decide) hB]
  rw [List.filterMap_cons, parseKV_append _ _ (by decide) hMi]
  rw [List.filterMap_cons, parseKV_append _ _ (by decide) hV]
  rw [List.filterMap_cons, parseKV_append _ _ (by decide) hMo]
  rw [List.filterMap_cons, parseKV_append _ _ (by decide) hU]
  rw [List.filterMap_cons, parseKV_append _ _ (by decide) hD]
  rw [List.filterMap_cons, parseKV_append _ _ (by decide) hJ]
  rfl

theorem decodeMacs_of_lookup (props : List (Str × Str)) (xs : List Str)
    (hl : lookupLast ("mac_addr").data props = some (joinChar ',' xs))
    (hcomma : ∀ m ∈ xs, ',' ∉ m) (h1 : xs ≠ [[]]) :
    decodeMacs props = xs := by
  have hstep : decodeMacs props =
      if joinChar ',' xs = [] then [] else splitChar ',' (joinChar ',' xs) := by
    unfold decodeMacs
    rw [hl]
  rw [hstep]
  by_cases hx : xs = []
  · subst hx
    simp [joinChar]
  · have hne : joinChar ',' xs ≠ [] := by
      intro hj
      rcases (joinChar_eq_nil_iff ',' xs).mp hj with h2 | h2
      · exact hx h2
      · exact h1 h2
    rw [if_neg hne]
    exact splitChar_joinChar ',' xs hx hcomma

theorem lookupLast_append_single (key k : Str) (v : Str) (props : List (Str × Str))
    (h : k ≠ key) :
    lookupLast key (props ++ [(k, v)]) = lookupLast key props := by
  induction props with
  | nil => simp [lookupLast, if_neg h]
  | cons p rest ih =>
    obtain ⟨k2, v2⟩ := p
    simp only [List.cons_append, lookupLast]
    rw [show rest.append [(k, v)] = rest ++ [(k, v)] from rfl, ih]

theorem lookupLast_append_self (key v : Str) (props : List (Str × Str)) :
    lookupLast key (props ++ [(key, v)]) = some v := by
  induction props with
  | nil => simp [lookupLast]
  | cons p rest ih =>
    obtain ⟨k2, v2⟩ := p
    simp only [List.cons_append, lookupLast]
    rw [show rest.append [(key, v)] = rest ++ [(key, v)] from rfl, ih]

/-- C1 (amended): decoding the encoded property lines of a record `r`
reproduces `Vendor`, `Model`, `UUID`, `Domain`, `BuildVersion`,
`MinorVersion` exactly and `MacAddresses` as an equal ordered sequence,
provided none of those six fields contains `=`, no MAC element contains
`=` or `,`, and the MAC list is not the one-element list containing the
empty string (the source splits each property line on every `=`, so a
value containing `=` makes the whole line be discarded, and an encoded
MAC list `[""]` is indistinguishable from the empty list). -/
theorem scan_decode_encode_roundtrip (r : NetworkHost) (hn : Str) (p : Int)
    (ips : List Str)
    (hV : '=' ∉ r.Vendor) (hMo : '=' ∉ r.Model) (hU : '=' ∉ r.UUID)
    (hD : '=' ∉ r.Domain) (hB : '=' ∉ r.BuildVersion) (hMi : '=' ∉ r.MinorVersion)
    (hmacEq : ∀ m ∈ r.MacAddr, '=' ∉ m) (hmacComma : ∀ m ∈ r.MacAddr, ',' ∉ m)
    (hmacNE : r.MacAddr ≠ [[]]) :
    entryToHost ⟨hn, p, ips, encodeProps r⟩ =
      { r with HostName := hn, Port := p, IPv4 := ips, Online := true } := by
  have hJ : '=' ∉ joinChar ',' r.MacAddr :=
    joinChar_not_mem '=' ',' (by decide) r.MacAddr hmacEq
  have hP := buildProps_encodeProps r hB hMi hV hMo hU hD hJ
  have key : entryToHost ⟨hn, p, ips, encodeProps r⟩ =
      { HostName := hn, Port := p, IPv4 := ips,
        Domain := propGet (buildProps (encodeProps r)) ("domain").data,
        Model := propGet (buildProps (encodeProps r)) ("model").data,
        UUID := propGet (buildProps (encodeProps r)) ("uuid").data,
        Vendor := propGet (buildProps (encodeProps r)) ("vendor").data,
        BuildVersion := propGet (buildProps (encodeProps r)) ("version_build").data,
        MinorVersion := propGet (buildProps (encodeProps r)) ("version_minor").data,
        MacAddr := decodeMacs (buildProps (encodeProps r)),
        Online := true } := rfl
  rw [key, hP]
  have hmacP := decodeMacs_of_lookup
      [ (("version_build").data, r.BuildVersion),
        (("version_minor").data, r.MinorVersion),
        (("vendor").data, r.Vendor),
        (("model").data, r.Model),
        (("uuid").data, r.UUID),
        (("domain").data, r.Domain),
        (("mac_addr").data, joinChar ',' r.MacAddr) ]
      r.MacAddr rfl hmacComma hmacNE
  rw [hmacP]
  rfl

/-- C1 (counterexample): for the record whose `Vendor` is `"a=b"`, the
decoded `Vendor` is `""`, not `"a=b"` — the collector splits the line
`vendor=a=b` into three parts and discards it, so `Decode(Encode(r))`
does not reproduce every record's fields. -/
theorem scan_roundtrip_counterexample :
    (entryToHost ⟨[], 0, [],
      encodeProps { HostName := []
                    Port := 0
                    IPv4 := []
                    Domain := []
                    Model := []
                    UUID := []
                    Vendor := ("a=b").data
                    BuildVersion := []
                    MinorVersion := []
                    MacAddr := []
                    Online := false }⟩).Vendor
      ≠ ("a=b").data := by decide

/-- C1 (witness): the round-trip theorem applied to a concrete record
with none of the excluded characters in its fields. -/
theorem scan_decode_encode_roundtrip_witness :
    entryToHost ⟨("nas").data, 80, [("192.168.1.7").data],
        encodeProps { HostName := ("aroz").data
                      Port := 8080
                      IPv4 := []
                      Domain := ("aroz.online").data
                      Model := ("NAS").data
                      UUID := ("uuid-1234").data
                      Vendor := ("IMUS").data
                      BuildVersion := ("1.119").data
                      MinorVersion := ("5").data
                      MacAddr := [("aa-bb-cc-dd-ee-ff").data, ("11-22-33-44-55-66").data]
                      Online := false }⟩ =
      { HostName := ("nas").data
        Port := 80
        IPv4 := [("192.168.1.7").data]
        Domain := ("aroz.online").data
        Model := ("NAS").data
        UUID := ("uuid-1234").data
        Vendor := ("IMUS").data
        BuildVersion := ("1.119").data
        MinorVersion := ("5").data
        MacAddr := [("aa-bb-cc-dd-ee-ff").data, ("11-22-33-44-55-66").data]
        Online := true } :=
  scan_decode_encode_roundtrip
    { HostName := ("aroz").data
      Port := 8080
      IPv4 := []
      Domain := ("aroz.online").data
      Model := ("NAS").data
      UUID := ("uuid-1234").data
      Vendor := ("IMUS").data
      BuildVersion := ("1.119").data
      MinorVersion := ("5").data
      MacAddr := [("aa-bb-cc-dd-ee-ff").data, ("11-22-33-44-55-66").data]
      Online := false }
    ("nas").data 80 [("192.168.1.7").data]
    (by decide) (by decide) (by decide) (by decide) (by decide) (by decide)
    (by decide) (by decide) (by decide)

/-- C5 (amended): `Decode` splits each property entry on every `=` (not
only the first) and keeps the entry exactly when that split yields two
parts, i.e. when the entry is `k=v` with `=` occurring nowhere in `k`
or `v`; entries whose key is not one of the seven known keys leave the
decoded record unchanged (unknown keys are ignored); accepted pairs
populate the corresponding fields via the properties map. -/
theorem decode_split_every_equals :
    (∀ l k v : Str, parseKV l = some (k, v) ↔ l = k ++ '=' :: v ∧ '=' ∉ k ∧ '=' ∉ v)
    ∧ (∀ (e : ServiceEntry) (k v : Str), '=' ∉ k → '=' ∉ v →
        k ∉ [("version_build").data, ("version_minor").data, ("vendor").data,
          ("model").data, ("uuid").data, ("domain").data, ("mac_addr").data] →
        entryToHost { e with Text := e.Text ++ [k ++ '=' :: v] } = entryToHost e) := by
  constructor
  · intro l k v
    rw [parseKV_eq_some_iff, splitChar_eq_pair]
  · intro e k v hk hv hnot
    obtain ⟨hn, p, ips, t⟩ := e
    have hline : buildProps (t ++ [k ++ '=' :: v]) = buildProps t ++ [(k, v)] := by
      unfold buildProps
      rw [List.filterMap_append]
      simp [List.filterMap_cons, parseKV_append k v hk hv]
    have hkey : ∀ key : Str, k ≠ key →
        lookupLast key (buildProps (t ++ [k ++ '=' :: v])) = lookupLast key (buildProps t) := by
      intro key hne
      rw [hline]
      exact lookupLast_append_single key k v _ hne
    have hne : ∀ key : Str,
        key ∈ [("version_build").data, ("version_minor").data, ("vendor").data,
          ("model").data, ("uuid").data, ("domain").data, ("mac_addr").data] →
        k ≠ key := by
      intro key hmem heq
      exact hnot (heq ▸ hmem)
    show entryToHost ⟨hn, p, ips, t ++ [k ++ '=' :: v]⟩ = entryToHost ⟨hn, p, ips, t⟩
    have hmac : decodeMacs (buildProps (t ++ [k ++ '=' :: v])) = decodeMacs (buildProps t) := by
      unfold decodeMacs
      rw [hkey ("mac_addr").data (hne _ (by simp))]
    simp only [entryToHost, propGet]
    rw [hmac, hkey ("domain").data (hne _ (by simp)), hkey ("model").data (hne _ (by simp)),
      hkey ("uuid").data (hne _ (by simp)), hkey ("vendor").data (hne _ (by simp)),
      hkey ("version_build").data (hne _ (by simp)),
      hkey ("version_minor").data (hne _ (by simp))]

/-- C5 (counterexample): the entry `domain=a=b` splits at the FIRST `=`
into exactly the two parts `domain` and `a=b`, so under the claim's
parsing rule it would be accepted and set `Domain` to `a=b`; the
collector instead splits on every `=`, obtains three parts, discards
the entry, and decodes `Domain` as the empty string. -/
theorem decode_first_equals_counterexample :
    specSplitFirstEq (("domain=a=b").data) = some (("domain").data, ("a=b").data)
    ∧ parseKV (("domain=a=b").data) = none
    ∧ (entryToHost ⟨[], 0, [], [("domain=a=b").data]⟩).Domain = [] := by decide

/-- C5 (witness): the amended decoding theorem applied to the concrete
entry `vendor=acme` and the unknown-key line `newkey=zz`. -/
theorem decode_split_every_equals_witness :
    (parseKV (("vendor=acme").data) = some (("vendor").data, ("acme").data)
      ↔ (("vendor=acme").data : Str) = ("vendor").data ++ '=' :: ("acme").data
        ∧ '=' ∉ (("vendor").data : Str) ∧ '=' ∉ (("acme").data : Str))
    ∧ entryToHost ⟨[], 0, [],
        [("vendor=acme").data] ++ [("newkey").data ++ '=' :: ("zz").data]⟩
      = entryToHost ⟨[], 0, [], [("vendor=acme").data]⟩ :=
  ⟨decode_split_every_equals.1 (("vendor=acme").data) (("vendor").data) (("acme").data),
   decode_split_every_equals.2 ⟨[], 0, [], [("vendor=acme").data]⟩
     (("newkey").data) (("zz").data) (by decide) (by decide) (by decide)⟩

/-- C8: encoding a record with an empty `MacAddresses` sequence and
decoding the result yields an empty `MacAddr` sequence (never `[""]`),
and any entry whose properties lack a `mac_addr` key, or carry it with
an empty value, decodes to an empty `MacAddr` sequence rather than an
error. -/
theorem empty_mac_roundtrip :
    (∀ (r : NetworkHost) (hn : Str) (p : Int) (ips : List Str),
      (entryToHost ⟨hn, p, ips, encodeProps { r with MacAddr := [] }⟩).MacAddr = [])
    ∧ (∀ e : ServiceEntry,
        lookupLast ("mac_addr").data (buildProps e.Text) = none ∨
          lookupLast ("mac_addr").data (buildProps e.Text) = some [] →
        (entryToHost e).MacAddr = []) := by
  constructor
  · intro r hn p ips
    show decodeMacs (buildProps (encodeProps { r with MacAddr := [] })) = []
    have hsplit : buildProps (encodeProps { r with MacAddr := [] }) =
        buildProps [ ("version_build=").data ++ r.BuildVersion,
          ("version_minor=").data ++ r.MinorVersion,
          ("vendor=").data ++ r.Vendor,
          ("model=").data ++ r.Model,
          ("uuid=").data ++ r.UUID,
          ("domain=").data ++ r.Domain ] ++ [(("mac_addr").data, [])] := by
      unfold buildProps
      rw [show encodeProps { r with MacAddr := [] } =
          [ ("version_build=").data ++ r.BuildVersion,
            ("version_minor=").data ++ r.MinorVersion,
            ("vendor=").data ++ r.Vendor,
            ("model=").data ++ r.Model,
            ("uuid=").data ++ r.UUID,
            ("domain=").data ++ r.Domain ] ++ [("mac_addr=").data] from rfl]
      rw [List.filterMap_append]
      rfl
    unfold decodeMacs
    rw [hsplit, lookupLast_append_self]
    rfl
  · intro e h
    show decodeMacs (buildProps e.Text) = []
    unfold decodeMacs
    rcases h with h | h
    · rw [h]
    · rw [h]
      rfl

/-- C8 (witness): the empty-MAC theorem applied to a concrete record
and to a concrete entry that omits the `mac_addr` key. -/
theorem empty_mac_roundtrip_witness :
    (entryToHost ⟨[], 0, [],
      encodeProps { HostName := []
                    Port := 0
                    IPv4 := []
                    Domain := ("aroz.online").data
                    Model := []
                    UUID := []
                    Vendor := []
                    BuildVersion := []
                    MinorVersion := []
                    MacAddr := []
                    Online := false }⟩).MacAddr = []
    ∧ (entryToHost ⟨[], 0, [], [("vendor=acme").data]⟩).MacAddr = [] :=
  ⟨empty_mac_roundtrip.1
      { HostName := []
        Port := 0
        IPv4 := []
        Domain := ("aroz.online").data
        Model := []
        UUID := []
        Vendor := []
        BuildVersion := []
        MinorVersion := []
        MacAddr := []
        Online := false } [] 0 [],
   empty_mac_roundtrip.2 ⟨[], 0, [], [("vendor=acme").data]⟩ (Or.inl (by decide))⟩

/-- C4: with a non-empty `domainFilter` the collector keeps exactly the
entries whose raw property lines contain the exact string
`domain=<domainFilter>` (raw-text membership, not a decoded-field
comparison); with the empty filter it keeps every entry. -/
theorem scan_domain_filter_exactness (domainFilter : Str) (entries : List ServiceEntry) :
    (domainFilter ≠ [] →
      scanCollect domainFilter entries =
        (entries.filter
          (fun e => decide ((("domain=").data ++ domainFilter) ∈ e.Text))).map entryToHost)
    ∧ scanCollect [] entries = entries.map entryToHost := by
  constructor
  · intro hf
    induction entries with
    | nil => rfl
    | cons e rest ih =>
      simp only [scanCollect, if_neg hf, List.filter_cons]
      by_cases hmem : (("domain=").data ++ domainFilter) ∈ e.Text
      · have hs : stringInSlice (("domain=").data ++ domainFilter) e.Text = true := by
          simpa [stringInSlice] using hmem
        rw [if_pos hs, ih,
          if_pos (show decide ((['d', 'o', 'm', 'a', 'i', 'n', '='] : Str) ++ domainFilter ∈ e.Text) = true
            from decide_eq_true hmem)]
        rfl
      · have hs : ¬ stringInSlice (("domain=").data ++ domainFilter) e.Text = true := by
          simpa [stringInSlice] using hmem
        rw [if_neg hs, ih,
          if_neg (show ¬ decide ((['d', 'o', 'm', 'a', 'i', 'n', '='] : Str) ++ domainFilter ∈ e.Text) = true
            from fun hdec => hmem (of_decide_eq_true hdec))]
  · induction entries with
    | nil => rfl
    | cons e rest ih =>
      simp only [scanCollect, List.map_cons]
      rw [ih]
      simp

/-- C4 (witness): the filter-exactness theorem at the spec's example —
two peers advertising `domain=alpha` and `domain=beta`: the `alpha`
scan returns only the first peer's record, the unfiltered scan both. -/
theorem scan_domain_filter_exactness_witness :
    (("alpha").data : Str) ≠ []
    ∧ scanCollect (("alpha").data)
        [⟨("a").data, 1, [], [("domain=alpha").data]⟩,
          ⟨("b").data, 2, [], [("domain=beta").data]⟩]
      = [entryToHost ⟨("a").data, 1, [], [("domain=alpha").data]⟩]
    ∧ scanCollect []
        [⟨("a").data, 1, [], [("domain=alpha").data]⟩,
          ⟨("b").data, 2, [], [("domain=beta").data]⟩]
      = [entryToHost ⟨("a").data, 1, [], [("domain=alpha").data]⟩,
          entryToHost ⟨("b").data, 2, [], [("domain=beta").data]⟩] :=
  ⟨by decide,
    ((scan_domain_filter_exactness (("alpha").data)
      [⟨("a").data, 1, [], [("domain=alpha").data]⟩,
        ⟨("b").data, 2, [], [("domain=beta").data]⟩]).1 (by decide)).trans (by decide),
    (scan_domain_filter_exactness (("alpha").data)
      [⟨("a").data, 1, [], [("domain=alpha").data]⟩,
        ⟨("b").data, 2, [], [("domain=beta").data]⟩]).2.trans (by decide)⟩

/-- C10: every host record the collector appends has `Online = true`,
in both the unfiltered branch and the domain-filtered branch. -/
theorem scan_results_online (domainFilter : Str) (entries : List ServiceEntry)
    (h : NetworkHost) (hmem : h ∈ scanCollect domainFilter entries) :
    h.Online = true := by
  induction entries with
  | nil => simp [scanCollect] at hmem
  | cons e rest ih =>
    by_cases hf : domainFilter = []
    · rw [hf] at hmem ih
      simp only [scanCollect, if_pos rfl] at hmem
      rcases List.mem_cons.mp hmem with h1 | h1
      · rw [h1]
        rfl
      · exact ih h1
    · simp only [scanCollect, if_neg hf] at hmem
      by_cases hs : stringInSlice (("domain=").data ++ domainFilter) e.Text = true
      · rw [if_pos hs] at hmem
        rcases List.mem_cons.mp hmem with h1 | h1
        · rw [h1]
          rfl
        · exact ih h1
      · rw [if_neg hs] at hmem
        exact ih hmem

/-- C10 (witness): the invariant at a concrete scan. -/
theorem scan_results_online_witness :
    (entryToHost ⟨("a").data, 1, [], [("domain=alpha").data]⟩).Online = true :=
  scan_results_online [] [⟨("a").data, 1, [], [("domain=alpha").data]⟩]
    (entryToHost ⟨("a").data, 1, [], [("domain=alpha").data]⟩) (by decide)

/-- C3: contrary to the claim, a resolver-creation or browse-start
failure does not return an error to the caller — `Scan` has no error
return value at all, and the source calls `log.Fatalln`, which
terminates the whole host process (the spec itself flags this legacy
behavior as the defect to correct). -/
theorem scan_failure_is_process_fatal (e : Str) (browseResult : Except Str Unit)
    (domainFilter : Str) (received : List ServiceEntry) :
    Scan (.error e) browseResult domainFilter received
      = .fatal (("Failed to initialize resolver:").data ++ e)
    ∧ Scan (.ok ()) (.error e) domainFilter received
      = .fatal (("Failed to browse:").data ++ e) :=
  ⟨rfl, rfl⟩

/-- C2: contrary to the claim, teardown can fault.  When registration
fails, `NewMDNS` returns the non-nil pointer `&MDNSHost{}` together
with the error; `Close` on that agent passes its nil-receiver guard and
invokes `Shutdown` through the nil `MDNS` handle — a nil-pointer
dereference.  `Close` on the nil agent returned when `getMacAddr`
fails, and `Close` on a successfully constructed agent (any number of
times, the model being stateless), do return normally. -/
theorem close_after_register_failure_crashes (config : NetworkHost) (macOverride : Str)
    (macs : List Str) (ifr : Except Str (List Iface)) (e : Str) :
    Close (NewMDNS config macOverride (.ok macs) (fun _ => .error e) ifr).1 = .nilDeref
    ∧ Close (NewMDNS config macOverride (.error e) (fun _ => .ok ⟨0⟩) ifr).1 = .ok
    ∧ Close (NewMDNS config macOverride (.ok macs) (fun _ => .ok ⟨0⟩) ifr).1 = .ok :=
  ⟨rfl, rfl, rfl⟩

/-- C7: construction fails with a returned error when hardware-address
enumeration fails (returning the nil agent), and fails with a returned
error when `Register` rejects the registration; in the latter case the
returned agent carries no advertisement handle (`MDNS` is nil), so no
dangling handle exists. -/
theorem newmdns_error_paths (config : NetworkHost) (macOverride : Str) (e1 e2 : Str)
    (register : List Str → Except Str ZeroconfServer) (ifr : Except Str (List Iface))
    (macs : List Str)
    (hreg : register (encodeProps { config with MacAddr := macs }) = .error e2) :
    NewMDNS config macOverride (.error e1) register ifr = (none, some e1)
    ∧ (NewMDNS config macOverride (.ok macs) register ifr).2 = some e2
    ∧ (NewMDNS config macOverride (.ok macs) register ifr).1.map (fun a => a.MDNS)
      = some none := by
  have hstep : NewMDNS config macOverride (.ok macs) register ifr
      = (some { MDNS := none, Host := none, IfaceOverride := none }, some e2) := by
    simp only [NewMDNS, hreg]
  exact ⟨rfl, by rw [hstep], by rw [hstep]; rfl⟩

/-- C7 (witness): the construction error paths at concrete inputs. -/
theorem newmdns_error_paths_witness :
    NewMDNS { HostName := ("aroz").data
              Port := 8080
              IPv4 := []
              Domain := []
              Model := []
              UUID := []
              Vendor := []
              BuildVersion := []
              MinorVersion := []
              MacAddr := []
              Online := false } [] (.error ("no-mac").data)
        (fun _ => .error ("reg-fail").data) (.ok [])
      = (none, some ("no-mac").data)
    ∧ (NewMDNS { HostName := ("aroz").data
                 Port := 8080
                 IPv4 := []
                 Domain := []
                 Model := []
                 UUID := []
                 Vendor := []
                 BuildVersion := []
                 MinorVersion := []
                 MacAddr := []
                 Online := false } [] (.ok []) (fun _ => .error ("reg-fail").data) (.ok [])).2
      = some ("reg-fail").data
    ∧ ((NewMDNS { HostName := ("aroz").data
                  Port := 8080
                  IPv4 := []
                  Domain := []
                  Model := []
                  UUID := []
                  Vendor := []
                  BuildVersion := []
                  MinorVersion := []
                  MacAddr := []
                  Online := false } [] (.ok []) (fun _ => .error ("reg-fail").data) (.ok [])).1.map
        (fun a => a.MDNS)) = some none := by
  have h := newmdns_error_paths
    { HostName := ("aroz").data
      Port := 8080
      IPv4 := []
      Domain := []
      Model := []
      UUID := []
      Vendor := []
      BuildVersion := []
      MinorVersion := []
      MacAddr := []
      Online := false } [] (("no-mac").data) (("reg-fail").data)
    (fun _ => .error ("reg-fail").data) (.ok []) [] rfl
  exact ⟨h.1, h.2.1, h.2.2⟩

theorem foldl_getD_last (f : GoAddr → Option Str) (init : Str) (addrs : List GoAddr) :
    List.foldl (fun acc addr => (f addr).getD acc) init addrs
      = ((addrs.filterMap f).getLast?).getD init := by
  induction addrs generalizing init with
  | nil => rfl
  | cons a rest ih =>
    rw [List.foldl_cons, ih, List.filterMap_cons]
    cases hf : f a with
    | none => rfl
    | some s =>
      show ((rest.filterMap f).getLast?).getD s = ((s :: rest.filterMap f).getLast?).getD init
      cases hl : rest.filterMap f with
      | nil => simp
      | cons q qs =>
        rw [List.getLast?_cons_cons]
        cases hgl : (q :: qs).getLast? with
        | none => simp at hgl
        | some t => simp

/-- C6 (amended): on a hardware-address match, the selector's
diagnostic IP is the LAST IPv4 address bound to the interface (the
loop keeps overwriting `ifaceIp` with every IPv4 it sees), falling
back to the first address's textual form when no IPv4 is present —
IPv4 is preferred over IPv6 unconditionally. -/
theorem iface_ip_last_v4 (addrs : List GoAddr) :
    resolveIfaceIp addrs =
      (lastV4Str addrs).getD ((addrs.head?.map GoAddr.str).getD []) := by
  have hstep : (fun (acc : Str) (addr : GoAddr) =>
      match addr.ip with
      | some ip => if ip.isV4 then ip.str else acc
      | none => acc)
      = fun (acc : Str) (addr : GoAddr) =>
        (match addr.ip with
          | some ip => if ip.isV4 then some ip.str else none
          | none => none).getD acc := by
    funext acc addr
    cases addr.ip with
    | none => rfl
    | some ip =>
      by_cases hv : ip.isV4 <;> simp [hv]
  cases addrs with
  | nil => rfl
  | cons a rest =>
    show List.foldl (fun acc addr =>
        match addr.ip with
        | some ip => if ip.isV4 then ip.str else acc
        | none => acc) a.str (a :: rest)
      = (lastV4Str (a :: rest)).getD a.str
    rw [hstep]
    unfold lastV4Str
    exact foldl_getD_last _ a.str (a :: rest)

/-- C6 (counterexample): an interface carrying the two IPv4 addresses
`1.2.3.4` and `5.6.7.8` in that order resolves its diagnostic IP to
`5.6.7.8` — the last usable IPv4 — not the first as the claim states. -/
theorem iface_ip_first_v4_counterexample :
    resolveIfaceIp [⟨("1.2.3.4/24").data, some ⟨true, ("1.2.3.4").data⟩⟩,
        ⟨("5.6.7.8/24").data, some ⟨true, ("5.6.7.8").data⟩⟩]
      = ("5.6.7.8").data
    ∧ specFirstV4Str [⟨("1.2.3.4/24").data, some ⟨true, ("1.2.3.4").data⟩⟩,
        ⟨("5.6.7.8/24").data, some ⟨true, ("5.6.7.8").data⟩⟩]
      = some (("1.2.3.4").data)
    ∧ (("5.6.7.8").data : Str) ≠ ("1.2.3.4").data := by decide

/-- C9: the override comparison depends on the requested hardware
address only through its canonical form (`:` replaced by `-`,
whitespace trimmed, case folded), so two spellings of the same address
that differ in `:`/`-` notation and letter case select the same
interface. -/
theorem mac_override_normalized_match (ifaces : List Iface) (o1 o2 : Str)
    (h : canonicalMac o1 = canonicalMac o2) :
    selectIface ifaces o1 = selectIface ifaces o2 := by
  unfold canonicalMac at h
  have hpred : (fun iface : Iface => matchesMac iface.mac o1)
      = fun iface : Iface => matchesMac iface.mac o2 := by
    funext iface
    unfold matchesMac goEqualFold
    rw [h]
  unfold selectIface
  rw [hpred]

/-- C9 (witness): `AA:BB:CC:DD:EE:FF` and `aa-bb-cc-dd-ee-ff` share a
canonical form and select the same interface. -/
theorem mac_override_normalized_match_witness :
    canonicalMac (("AA:BB:CC:DD:EE:FF").data) = canonicalMac (("aa-bb-cc-dd-ee-ff").data)
    ∧ selectIface [⟨("aa-bb-cc-dd-ee-ff").data, []⟩] (("AA:BB:CC:DD:EE:FF").data)
      = selectIface [⟨("aa-bb-cc-dd-ee-ff").data, []⟩] (("aa-bb-cc-dd-ee-ff").data) :=
  ⟨by decide,
    mac_override_normalized_match [⟨("aa-bb-cc-dd-ee-ff").data, []⟩]
      (("AA:BB:CC:DD:EE:FF").data) (("aa-bb-cc-dd-ee-ff").data) (by decide)⟩
